import Mathlib

/-!
Verification of the `binpacking` Go package (3D bin packing).

The definitions below are a shallow embedding of the package's second
(current) implementation: `Pack`, `pack`, `Box.place`, `pickBox`,
`getBiggerBox`, `BoxItem.intersect`, `intersect`, `BoxItem.Dimensions`,
`BoxSamples`, and the `Items` sort.  Dimensions are millimetres and weights
grams, all non-negative and small (≤ a few hundred mm, volumes ≤ ~6·10⁷ mm³),
far below the range where Go's 64-bit `int` could overflow, so Go ints are
modelled as `Nat`.  Go's integer division (`/2` on non-negative values)
is `Nat` division.

Go mutates state (the working box, the caller's slice); the embedding passes
that state explicitly: `Box.place` returns the updated box together with the
`fit` flag, `pack` returns the final box and the not-packed leftovers, and
`Pack` returns the committed boxes and an optional error (the offending item
stands in for Go's formatted "item too big" error value).
-/

namespace Binpacking

/-- A 3D integer vector, modelling Go's `[3]int` (all values here are
non-negative mm offsets). -/
structure V3 where
  x : Nat
  y : Nat
  z : Nat
deriving DecidableEq, Repr

/-- The `Item` interface of the source exposes exactly four integer getters;
an item is therefore modelled as the record of those four values. -/
structure Item where
  width : Nat
  height : Nat
  depth : Nat
  weight : Nat
deriving DecidableEq, Repr

/-- `RotationType`, the six axis-aligned rotations `RT1..RT6`. -/
inductive RotationType where
  | RT1 | RT2 | RT3 | RT4 | RT5 | RT6
deriving DecidableEq, Repr

export RotationType (RT1 RT2 RT3 RT4 RT5 RT6)

/-- The fixed order in which `Box.place` tries rotations
(`for i := 0; i < 6; i++`). -/
def rotationOrder : List RotationType := [RT1, RT2, RT3, RT4, RT5, RT6]

/-- `BoxItem`: an item seated in a box, with its position and rotation. -/
structure BoxItem where
  item : Item
  pos : V3
  rtype : RotationType
deriving DecidableEq, Repr

/-- The `Box` struct: a catalog template plus the placed items. -/
structure Box where
  name : String
  width : Nat
  height : Nat
  depth : Nat
  weight : Nat
  items : List BoxItem
deriving DecidableEq, Repr

/-- `Box.volume`. -/
def Box.volume (b : Box) : Nat := b.width * b.height * b.depth

/-- `Box.IsValid`: volume nonzero. -/
def Box.isValidB (b : Box) : Bool := b.volume != 0

/-- The zero `Box{}` value returned by `pickBox`/`getBiggerBox` on failure. -/
def zeroBox : Box := ⟨"", 0, 0, 0, 0, []⟩

/-- The `BoxSamples` catalog, transcribed field by field from the source. -/
def BoxSamples : List Box :=
  [ ⟨"Box1", 220, 160, 100, 110, []⟩
  , ⟨"Box2", 260, 145, 145, 120, []⟩
  , ⟨"Box3", 270, 185, 110, 140, []⟩
  , ⟨"Box4", 310, 220, 140, 210, []⟩
  , ⟨"Box5", 300, 210, 200, 250, []⟩
  , ⟨"Box6", 300, 300, 130, 290, []⟩
  , ⟨"Box7", 370, 270, 150, 300, []⟩
  , ⟨"Box8", 300, 300, 250, 360, []⟩
  , ⟨"Box9", 470, 280, 210, 400, []⟩
  , ⟨"Box10", 430, 315, 200, 430, []⟩
  , ⟨"Box11", 330, 330, 350, 500, []⟩
  , ⟨"Box12", 465, 350, 370, 650, []⟩
  ]

/-- `BoxItem.Dimensions`: the rotated extents, per the `switch` in the
source (RT1 (w,h,d), RT2 (h,w,d), RT3 (h,d,w), RT4 (d,h,w), RT5 (d,w,h),
RT6 (w,d,h)). -/
def BoxItem.dimensions (bi : BoxItem) : V3 :=
  match bi.rtype with
  | RT1 => ⟨bi.item.width, bi.item.height, bi.item.depth⟩
  | RT2 => ⟨bi.item.height, bi.item.width, bi.item.depth⟩
  | RT3 => ⟨bi.item.height, bi.item.depth, bi.item.width⟩
  | RT4 => ⟨bi.item.depth, bi.item.height, bi.item.width⟩
  | RT5 => ⟨bi.item.depth, bi.item.width, bi.item.height⟩
  | RT6 => ⟨bi.item.width, bi.item.depth, bi.item.height⟩

/-- The 2D rectangle test `intersect(o1, o2, x1, y1, x2, y2)`: centre
distances (with Go's truncating integer division) compared against the
truncated half-extent sums, strict inequality on both axes. -/
def intersect (o1 o2 : Nat × Nat) (x1 y1 x2 y2 : Nat) : Bool :=
  let centerx1 := o1.1 + x1 / 2
  let centery1 := o1.2 + y1 / 2
  let centerx2 := o2.1 + x2 / 2
  let centery2 := o2.2 + y2 / 2
  let x := if centerx1 > centerx2 then centerx1 - centerx2 else centerx2 - centerx1
  let y := if centery1 > centery2 then centery1 - centery2 else centery2 - centery1
  decide (x < (x1 + x2) / 2) && decide (y < (y1 + y2) / 2)

/-- `BoxItem.intersect`: three pairwise 2D tests (XY, YZ, XZ) must all
report overlap. -/
def BoxItem.intersect (bi1 bi2 : BoxItem) : Bool :=
  let d1 := bi1.dimensions
  let d2 := bi2.dimensions
  Binpacking.intersect (bi1.pos.x, bi1.pos.y) (bi2.pos.x, bi2.pos.y) d1.x d1.y d2.x d2.y &&
  Binpacking.intersect (bi1.pos.y, bi1.pos.z) (bi2.pos.y, bi2.pos.z) d1.y d1.z d2.y d2.z &&
  Binpacking.intersect (bi1.pos.x, bi1.pos.z) (bi2.pos.x, bi2.pos.z) d1.x d1.z d2.x d2.z

/-- The body of `Box.place`'s rotation loop, as a recursion over the
remaining rotations.  A rotation failing the boundary check `continue`s;
the first rotation that fits the boundary is collision-checked against every
seated item: a collision hits the bare `return` (whole attempt aborted,
box unchanged), otherwise the item is appended and the loop `break`s. -/
def placeLoop (b : Box) (item : Item) (pos : V3) : List RotationType → Box × Bool
  | [] => (b, false)
  | r :: rs =>
    let bi : BoxItem := ⟨item, pos, r⟩
    let d := bi.dimensions
    if b.width < pos.x + d.x ∨ b.height < pos.y + d.y ∨ b.depth < pos.z + d.z then
      placeLoop b item pos rs
    else if b.items.any (fun it => it.intersect bi) then
      (b, false)
    else
      ({ b with items := b.items ++ [bi] }, true)

/-- `Box.place(item, pos)`: try the six rotations in order. -/
def Box.place (b : Box) (item : Item) (pos : V3) : Box × Bool :=
  placeLoop b item pos rotationOrder

/-- `pickBox`: the first catalog sample into which the item can be placed at
the origin; its item list is reset before it is returned.  `Box{}` (the zero
box) if none fits. -/
def pickBox (item : Item) : Box :=
  match BoxSamples.find? (fun b => (b.place item ⟨0, 0, 0⟩).2) with
  | some b => { b with items := [] }
  | none => zeroBox

/-- `getBiggerBox`: the first catalog sample with volume strictly greater
than the given box's volume, or the zero box. -/
def getBiggerBox (box : Box) : Box :=
  match BoxSamples.find? (fun b => box.volume < b.volume) with
  | some b => b
  | none => zeroBox

/-- `Box.nonBoxItems`: the placed items' underlying `Item`s, in order. -/
def Box.nonBoxItems (b : Box) : List Item := b.items.map (·.item)

/-- The candidate anchor computed by the `switch p` in `pack`'s lookup loop:
the seated item's position offset along axis `p` by the item's original
(un-rotated) `GetWidth`/`GetHeight`/`GetDepth`. -/
def goAnchor (p : Nat) (bi : BoxItem) : V3 :=
  match p with
  | 0 => ⟨bi.pos.x + bi.item.width, bi.pos.y, bi.pos.z⟩
  | 1 => ⟨bi.pos.x, bi.pos.y + bi.item.height, bi.pos.z⟩
  | _ => ⟨bi.pos.x, bi.pos.y, bi.pos.z + bi.item.depth⟩

/-- Inner loop of `pack`'s anchor search for a fixed axis `p`: try, for each
seated item in order, placing at its `goAnchor`; the first success breaks out
(`break lookup`).  A failed `place` leaves the box unchanged, so iterating
with the entry box is faithful. -/
def lookupItems (b : Box) (it : Item) (p : Nat) : List BoxItem → Box × Bool
  | [] => (b, false)
  | bi :: rest =>
    let r := b.place it (goAnchor p bi)
    if r.2 then r else lookupItems b it p rest

/-- The full `lookup` label: axes `p = 0, 1, 2` in order, each over all items
seated at entry to this item's search. -/
def lookupGo (b : Box) (it : Item) : Box × Bool :=
  let r0 := lookupItems b it 0 b.items
  if r0.2 then r0 else
  let r1 := lookupItems b it 1 b.items
  if r1.2 then r1 else
  lookupItems b it 2 b.items

/-- The first-item step of `pack`: place `toPack[0]` at the origin; on failure
replace the working box by `getBiggerBox` and retry (the source recurses into
`pack` itself, which re-runs exactly this step).  If no bigger valid box
exists the box is left as is and `false` is returned (the source then returns
the whole `toPack`).

The fuel only bounds the escalation chain: each step moves to a catalog box
of strictly greater volume, the twelve catalog volumes are pairwise distinct,
so at most 12 steps can ever be taken and fuel 13 (`packFuel`) is never
exhausted; see `packFirst_fuel_irrelevant` below. -/
def packFirst (fuel : Nat) (b : Box) (it : Item) : Box × Bool :=
  match fuel with
  | 0 => (b, false)
  | fuel + 1 =>
    let r := b.place it ⟨0, 0, 0⟩
    if r.2 then r
    else
      let nbin := getBiggerBox b
      if nbin.isValidB then packFirst fuel nbin it else (b, false)

/-- Fuel for the two escalation chains (12 catalog entries + 1). -/
def packFuel : Nat := 13

/-- Number of catalog entries with volume strictly above `v`: the measure
that shrinks along every `getBiggerBox` escalation chain, bounding both
chains to at most 12 steps (see `packFirst_fuel_irrelevant` and
`escalate_fuel_irrelevant`). -/
def countBigger (v : Nat) : Nat :=
  (BoxSamples.filter (fun b => decide (v < b.volume))).length

/-- The subsequent-item loop of `pack` with `replaceBin = false` (the variant
run inside a speculative re-pack): items that fit nowhere are appended to
`notPacked` and the loop continues; no box replacement happens here. -/
def fillNR (b : Box) : List Item → Box × List Item
  | [] => (b, [])
  | it :: rest =>
    let r := lookupGo b it
    if r.2 then
      fillNR r.1 rest
    else
      let s := fillNR b rest
      (s.1, it :: s.2)

/-- `pack` with `replaceBin = false`: seat the first item (escalating the box
if even the origin placement fails), then run the no-escalation fill loop. -/
def packNR (b : Box) (toPack : List Item) : Box × List Item :=
  match toPack with
  | [] => (b, [])
  | it :: rest =>
    let r := packFirst packFuel b it
    if r.2 then fillNR r.1 rest else (r.1, it :: rest)

/-- The escalation loop of `pack` (`for nbin := getBiggerBox(*currentBin);
nbin.IsValid(); nbin = getBiggerBox(nbin)`): speculatively re-pack the box's
current items plus the failing item into the candidate with `replaceBin =
false`; zero leftovers commits the candidate.  Note the loop's post-statement
applies `getBiggerBox` to `nbin` *as mutated by the speculative `pack` call*.
Fuel as in `packFirst`: the candidate volume strictly increases each
iteration, so 13 is never exhausted. -/
def escalate (fuel : Nat) (items : List Item) (nbin : Box) : Option Box :=
  match fuel with
  | 0 => none
  | fuel + 1 =>
    if nbin.isValidB then
      let r := packNR nbin items
      if r.2.isEmpty then some r.1
      else escalate fuel items (getBiggerBox r.1)
    else none

/-- The subsequent-item loop of `pack` with `replaceBin = true`: an item that
fits nowhere first triggers the escalation loop; only if that fails too is
the item deferred to `notPacked`. -/
def fillR (b : Box) : List Item → Box × List Item
  | [] => (b, [])
  | it :: rest =>
    let r := lookupGo b it
    if r.2 then
      fillR r.1 rest
    else
      match escalate packFuel (b.nonBoxItems ++ [it]) (getBiggerBox b) with
      | some nb => fillR nb rest
      | none =>
        let s := fillR b rest
        (s.1, it :: s.2)

/-- `pack(currentBin, toPack, replaceBin)`.  The source indexes `toPack[0]`
unconditionally; `Pack` only ever calls it with a non-empty list, and the
empty case is given the vacuous value `(b, [])`. -/
def pack (b : Box) (toPack : List Item) (replaceBin : Bool) : Box × List Item :=
  match toPack with
  | [] => (b, [])
  | it :: rest =>
    let r := packFirst packFuel b it
    if r.2 then
      if replaceBin then fillR r.1 rest else fillNR r.1 rest
    else (r.1, it :: rest)

/-- Descending-volume comparison used by `Items.Less`
(`vol(i) > vol(j)`, i.e. sorting puts larger volumes first). -/
def volGe (a b : Item) : Prop :=
  b.width * b.height * b.depth ≤ a.width * a.height * a.depth

instance : DecidableRel volGe := fun _ _ =>
  inferInstanceAs (Decidable (_ ≤ _))

/-- `sort.Sort(Items(notPacked))`: the slice ordered by descending volume.
Go's `sort.Sort` is an unspecified unstable comparison sort; the model uses
insertion sort, which produces the same result whenever no two items tie in
volume (every concrete run below is tie-free). -/
def sortDesc (items : List Item) : List Item :=
  List.insertionSort volGe items

/-- The contents of the caller's `notPacked` slice after `Pack` returns:
`sort.Sort` permutes the caller's backing array in place, and nothing later
writes through it (`notPacked = pack(...)` rebinds the local slice header,
and `pack` appends to a fresh nil slice). -/
def callerSliceAfterPack (items : List Item) : List Item := sortDesc items

/-- The outer loop of `Pack` (`for len(notPacked) > 0`).  `none` marks the
divergence case: an iteration that fails to shrink the batch repeats the same
state forever in Go.  A terminating run shrinks the batch every iteration and
therefore fits in `length + 1` iterations, so fuel `length + 1` returns
`some` exactly on Go's terminating runs (`Pack` below);
`claimC3_termination` proves `some` is always reached. -/
def PackLoop (fuel : Nat) (notPacked : List Item) (boxes : List Box) :
    Option (List Box × Option Item) :=
  match fuel with
  | 0 => match notPacked with
    | [] => some (boxes, none)
    | _ :: _ => none
  | fuel + 1 =>
    match notPacked with
    | [] => some (boxes, none)
    | it :: rest =>
      let currentBin := pickBox it
      if currentBin.isValidB then
        let r := pack currentBin (it :: rest) true
        let boxes' := if r.1.items.isEmpty then boxes else boxes ++ [r.1]
        PackLoop fuel r.2 boxes'
      else
        some (boxes, some it)

/-- `Pack`: sort descending by volume, then run the outer loop.  The error
value is modelled by the offending item (the source formats its four getters
into the "item too big" error string). -/
def Pack (items : List Item) : Option (List Box × Option Item) :=
  let sorted := sortDesc items
  PackLoop (sorted.length + 1) sorted []

/-! ### Spec-side definitions

These render the specification's own wording, for comparison against the
source-derived definitions above. -/

/-- The boundary ("anchor-fit") check of §4.3 for one rotation:
`anchor + extents ≤ box dimensions` per axis. -/
def fitsBounds (b : Box) (it : Item) (pos : V3) (r : RotationType) : Bool :=
  let d := BoxItem.dimensions ⟨it, pos, r⟩
  decide (pos.x + d.x ≤ b.width) && decide (pos.y + d.y ≤ b.height) &&
    decide (pos.z + d.z ≤ b.depth)

/-- §4.3's description of placement: find the first rotation (in `RT1..RT6`
order) that passes the boundary check, skipping boundary failures; collision-
check only that rotation against every seated item; a collision fails the
whole attempt with the box unchanged, otherwise the placed-item record is
appended. -/
def placeSpec (b : Box) (it : Item) (pos : V3) : Box × Bool :=
  match rotationOrder.find? (fitsBounds b it pos) with
  | none => (b, false)
  | some r =>
    if b.items.any (fun a => a.intersect ⟨it, pos, r⟩) then (b, false)
    else ({ b with items := b.items ++ [⟨it, pos, r⟩] }, true)

/-- First-fit over an explicit list of candidate anchors (the flattened form
of the `lookup` loops; a failing `Box.place` leaves the box unchanged). -/
def tryAnchorList (b : Box) (it : Item) : List V3 → Box × Bool
  | [] => (b, false)
  | pos :: rest =>
    let r := b.place it pos
    if r.2 then r else tryAnchorList b it rest

/-- The anchors `pack`'s lookup tries, in order: axis 0 over all seated items,
then axis 1, then axis 2. -/
def candidateAnchors (b : Box) : List V3 :=
  b.items.map (goAnchor 0) ++ b.items.map (goAnchor 1) ++ b.items.map (goAnchor 2)

/-- Exact (non-truncating) positive-length overlap of the 1D intervals
`[a, a+x1]` and `[b, b+x2]`. -/
def overlapsExact1 (a x1 b x2 : Nat) : Prop :=
  max a b < min (a + x1) (b + x2)

instance (a x1 b x2 : Nat) : Decidable (overlapsExact1 a x1 b x2) := by
  unfold overlapsExact1; infer_instance

/-- Exact positive-volume intersection of two placed items' rotated
axis-aligned boxes (the spec's §4.2 description of `overlaps`): positive
overlap on all three axes simultaneously. -/
def overlapsExact (bi1 bi2 : BoxItem) : Prop :=
  overlapsExact1 bi1.pos.x bi1.dimensions.x bi2.pos.x bi2.dimensions.x ∧
  overlapsExact1 bi1.pos.y bi1.dimensions.y bi2.pos.y bi2.dimensions.y ∧
  overlapsExact1 bi1.pos.z bi1.dimensions.z bi2.pos.z bi2.dimensions.z

instance (bi1 bi2 : BoxItem) : Decidable (overlapsExact bi1 bi2) := by
  unfold overlapsExact; infer_instance

/-! ### Invariants -/

/-- The in-bounds invariant of §3/§8: `position[i] + rotatedExtent[i] ≤
box.dimension[i]` on each axis. -/
def inBoundsBI (b : Box) (bi : BoxItem) : Prop :=
  bi.pos.x + bi.dimensions.x ≤ b.width ∧
  bi.pos.y + bi.dimensions.y ≤ b.height ∧
  bi.pos.z + bi.dimensions.z ≤ b.depth

/-- No earlier/later pair of seated items is reported as overlapping by the
implementation's `BoxItem.intersect` test. -/
def noPairOverlap (l : List BoxItem) : Prop :=
  List.Pairwise (fun a c => a.intersect c = false) l

/-- The box invariant maintained by every placement path. -/
def BoxInv (b : Box) : Prop :=
  noPairOverlap b.items ∧ ∀ bi ∈ b.items, inBoundsBI b bi

/-! ### Concrete inputs used by witnesses and counterexamples -/

/-- 60×50×150 item: seats in Box1 only under RT3 (rotated extents 50×150×60). -/
def cI60 : Item := ⟨60, 50, 150, 10⟩

/-- A small 10 mm cube. -/
def cI10 : Item := ⟨10, 10, 10, 10⟩

/-- A 160 mm cube: the smallest catalog box that holds it is Box5. -/
def cI160 : Item := ⟨160, 160, 160, 10⟩

/-- A 150 mm cube. -/
def cI150 : Item := ⟨150, 150, 150, 10⟩

/-- An item with exactly Box12's inner dimensions. -/
def cIBig : Item := ⟨465, 350, 370, 10⟩

/-- A 1 m rod: fits no catalog box in any rotation. -/
def cILong : Item := ⟨1000, 10, 10, 10⟩

/-- 160×161×40: Box1 admits it only under RT2 (rotated extents 161×160×40). -/
def cIOdd : Item := ⟨160, 161, 40, 10⟩

/-- A 40 mm cube. -/
def cICube40 : Item := ⟨40, 40, 40, 10⟩

/-- The box `Pack [cI60]` commits. -/
def cBox60 : Box := ⟨"Box1", 220, 160, 100, 110, [⟨cI60, ⟨0, 0, 0⟩, RT3⟩]⟩

/-- The box `Pack [cI160]` commits. -/
def cBox160 : Box := ⟨"Box5", 300, 210, 200, 250, [⟨cI160, ⟨0, 0, 0⟩, RT1⟩]⟩

instance : IsTotal Item volGe :=
  ⟨fun a b => Nat.le_total (b.width * b.height * b.depth) (a.width * a.height * a.depth)⟩

instance : IsTrans Item volGe :=
  ⟨fun _ _ _ hab hbc => le_trans hbc hab⟩

/-! ### Properties of `Box.place` -/

theorem fitsBounds_true_iff (b : Box) (it : Item) (pos : V3) (r : RotationType) :
    fitsBounds b it pos r = true ↔
      pos.x + (BoxItem.dimensions ⟨it, pos, r⟩).x ≤ b.width ∧
      pos.y + (BoxItem.dimensions ⟨it, pos, r⟩).y ≤ b.height ∧
      pos.z + (BoxItem.dimensions ⟨it, pos, r⟩).z ≤ b.depth := by
  simp [fitsBounds, and_assoc]

theorem placeLoop_eq_spec (b : Box) (it : Item) (pos : V3) :
    ∀ rs : List RotationType,
      placeLoop b it pos rs =
        match rs.find? (fitsBounds b it pos) with
        | none => (b, false)
        | some r =>
          if b.items.any (fun a => a.intersect ⟨it, pos, r⟩) then (b, false)
          else ({ b with items := b.items ++ [⟨it, pos, r⟩] }, true) := by
  intro rs
  induction rs with
  | nil => simp [placeLoop]
  | cons r rs ih =>
    by_cases hf : fitsBounds b it pos r = true
    · have hb : ¬ (b.width < pos.x + (BoxItem.dimensions ⟨it, pos, r⟩).x ∨
          b.height < pos.y + (BoxItem.dimensions ⟨it, pos, r⟩).y ∨
          b.depth < pos.z + (BoxItem.dimensions ⟨it, pos, r⟩).z) := by
        rcases (fitsBounds_true_iff b it pos r).1 hf with ⟨h1, h2, h3⟩
        omega
      rw [List.find?_cons_of_pos _ hf]
      simp only [placeLoop, if_neg hb]
    · have hb : b.width < pos.x + (BoxItem.dimensions ⟨it, pos, r⟩).x ∨
          b.height < pos.y + (BoxItem.dimensions ⟨it, pos, r⟩).y ∨
          b.depth < pos.z + (BoxItem.dimensions ⟨it, pos, r⟩).z := by
        have := (fitsBounds_true_iff b it pos r).2
        by_contra hc
        exact hf (this (by omega))
      rw [List.find?_cons_of_neg _ hf]
      simp only [placeLoop, if_pos hb]
      exact ih

theorem place_eq_placeSpec (b : Box) (it : Item) (pos : V3) :
    b.place it pos = placeSpec b it pos := by
  unfold Box.place placeSpec
  exact placeLoop_eq_spec b it pos rotationOrder

theorem place_cases (b : Box) (it : Item) (pos : V3) :
    b.place it pos = (b, false) ∨
    ∃ r, rotationOrder.find? (fitsBounds b it pos) = some r ∧
      b.items.any (fun a => a.intersect ⟨it, pos, r⟩) = false ∧
      b.place it pos = ({ b with items := b.items ++ [⟨it, pos, r⟩] }, true) := by
  rw [place_eq_placeSpec]
  unfold placeSpec
  cases hf : rotationOrder.find? (fitsBounds b it pos) with
  | none => exact Or.inl rfl
  | some r =>
    by_cases hc : b.items.any (fun a => a.intersect ⟨it, pos, r⟩) = true
    · exact Or.inl (by simp [hc])
    · exact Or.inr ⟨r, rfl, by simpa using hc, by simp [hc]⟩

theorem place_fst_of_false (b : Box) (it : Item) (pos : V3)
    (h : (b.place it pos).2 = false) : (b.place it pos).1 = b := by
  rcases place_cases b it pos with heq | ⟨r, _, _, heq⟩
  · rw [heq]
  · rw [heq] at h
    simp at h

theorem place_dims (b : Box) (it : Item) (pos : V3) :
    (b.place it pos).1.width = b.width ∧ (b.place it pos).1.height = b.height ∧
      (b.place it pos).1.depth = b.depth := by
  rcases place_cases b it pos with heq | ⟨r, _, _, heq⟩ <;> rw [heq] <;> exact ⟨rfl, rfl, rfl⟩

theorem place_inv (b : Box) (it : Item) (pos : V3) (hb : BoxInv b) :
    BoxInv (b.place it pos).1 := by
  rcases place_cases b it pos with heq | ⟨r, hfind, hany, heq⟩
  · rw [heq]
    exact hb
  · rw [heq]
    have hnc : ∀ a ∈ b.items, a.intersect ⟨it, pos, r⟩ = false := by
      intro a ha
      have := List.any_eq_false.mp hany a ha
      simpa using this
    have hfit := (fitsBounds_true_iff b it pos r).1 (List.find?_some hfind)
    constructor
    · refine List.pairwise_append.mpr ⟨hb.1, List.pairwise_singleton _ _, ?_⟩
      intro a ha c hc
      rw [List.mem_singleton.mp hc]
      exact hnc a ha
    · intro bi hbi
      rcases List.mem_append.mp hbi with hmem | hmem
      · exact hb.2 bi hmem
      · rw [List.mem_singleton.mp hmem]
        exact hfit

/-! ### Properties of the anchor lookup -/

theorem lookupItems_inv (b : Box) (it : Item) (p : Nat) :
    ∀ l, BoxInv b → BoxInv (lookupItems b it p l).1 := by
  intro l hb
  induction l with
  | nil => simpa [lookupItems] using hb
  | cons bi rest ih =>
    cases h : (b.place it (goAnchor p bi)).2 with
    | true =>
      simp only [lookupItems, h, if_pos]
      exact place_inv b it (goAnchor p bi) hb
    | false => simpa only [lookupItems, h, if_neg, Bool.false_eq_true, not_false_iff] using ih

theorem lookupItems_dims (b : Box) (it : Item) (p : Nat) :
    ∀ l, (lookupItems b it p l).1.width = b.width ∧
      (lookupItems b it p l).1.height = b.height ∧
      (lookupItems b it p l).1.depth = b.depth := by
  intro l
  induction l with
  | nil => simp [lookupItems]
  | cons bi rest ih =>
    cases h : (b.place it (goAnchor p bi)).2 with
    | true =>
      simp only [lookupItems, h, if_pos]
      exact place_dims b it (goAnchor p bi)
    | false => simpa only [lookupItems, h, Bool.false_eq_true, if_false] using ih

theorem lookupGo_inv (b : Box) (it : Item) (hb : BoxInv b) :
    BoxInv (lookupGo b it).1 := by
  unfold lookupGo
  cases h0 : (lookupItems b it 0 b.items).2 with
  | true =>
    simp only [h0, if_pos]
    exact lookupItems_inv b it 0 b.items hb
  | false =>
    cases h1 : (lookupItems b it 1 b.items).2 with
    | true => simp only [h0, h1, Bool.false_eq_true, if_false, if_pos]
              exact lookupItems_inv b it 1 b.items hb
    | false => simp only [h0, h1, Bool.false_eq_true, if_false]
               exact lookupItems_inv b it 2 b.items hb

theorem lookupGo_dims (b : Box) (it : Item) :
    (lookupGo b it).1.width = b.width ∧ (lookupGo b it).1.height = b.height ∧
      (lookupGo b it).1.depth = b.depth := by
  unfold lookupGo
  cases h0 : (lookupItems b it 0 b.items).2 with
  | true =>
    simp only [h0, if_pos]
    exact lookupItems_dims b it 0 b.items
  | false =>
    cases h1 : (lookupItems b it 1 b.items).2 with
    | true => simp only [h0, h1, Bool.false_eq_true, if_false, if_pos]
              exact lookupItems_dims b it 1 b.items
    | false => simp only [h0, h1, Bool.false_eq_true, if_false]
               exact lookupItems_dims b it 2 b.items

/-! ### Properties of the catalog selectors -/

theorem BoxSamples_items_nil : ∀ b ∈ BoxSamples, b.items = [] := by decide

theorem BoxInv_of_items_nil (b : Box) (h : b.items = []) : BoxInv b := by
  constructor
  · rw [h]
    exact List.Pairwise.nil
  · intro bi hbi
    rw [h] at hbi
    exact absurd hbi (List.not_mem_nil bi)

theorem getBiggerBox_items (b : Box) : (getBiggerBox b).items = [] := by
  unfold getBiggerBox
  cases hf : BoxSamples.find? (fun bb => b.volume < bb.volume) with
  | none => rfl
  | some bb =>
    simp only []
    exact BoxSamples_items_nil bb (List.mem_of_find?_eq_some hf)

theorem pickBox_items (it : Item) : (pickBox it).items = [] := by
  unfold pickBox
  cases hf : BoxSamples.find? (fun b => (b.place it ⟨0, 0, 0⟩).2) <;> rfl

/-! ### Properties of `pack` and its loops -/

theorem packFirst_inv (it : Item) :
    ∀ fuel b, BoxInv b → BoxInv (packFirst fuel b it).1 := by
  intro fuel
  induction fuel with
  | zero => intro b hb; simpa [packFirst] using hb
  | succ fuel ih =>
    intro b hb
    cases h : (b.place it ⟨0, 0, 0⟩).2 with
    | true =>
      simp only [packFirst, h, if_pos]
      exact place_inv b it ⟨0, 0, 0⟩ hb
    | false =>
      cases hv : (getBiggerBox b).isValidB with
      | true =>
        simp only [packFirst, h, Bool.false_eq_true, if_false, hv, if_pos]
        exact ih (getBiggerBox b) (BoxInv_of_items_nil _ (getBiggerBox_items b))
      | false => simpa only [packFirst, h, hv, Bool.false_eq_true, if_false] using hb

theorem fillNR_inv :
    ∀ l b, BoxInv b → BoxInv (fillNR b l).1 := by
  intro l
  induction l with
  | nil => intro b hb; simpa [fillNR] using hb
  | cons it' rest ih =>
    intro b hb
    cases h : (lookupGo b it').2 with
    | true =>
      simp only [fillNR, h, if_pos]
      exact ih _ (lookupGo_inv b it' hb)
    | false =>
      simp only [fillNR, h, Bool.false_eq_true, if_false]
      exact ih _ hb

theorem fillNR_dims (b : Box) :
    ∀ l, (fillNR b l).1.width = b.width ∧ (fillNR b l).1.height = b.height ∧
      (fillNR b l).1.depth = b.depth := by
  intro l
  induction l generalizing b with
  | nil => simp [fillNR]
  | cons it' rest ih =>
    cases h : (lookupGo b it').2 with
    | true =>
      simp only [fillNR, h, if_pos]
      rcases ih (lookupGo b it').1 with ⟨hw, hh, hd⟩
      rcases lookupGo_dims b it' with ⟨hw2, hh2, hd2⟩
      exact ⟨hw.trans hw2, hh.trans hh2, hd.trans hd2⟩
    | false =>
      simp only [fillNR, h, Bool.false_eq_true, if_false]
      exact ih b

theorem fillNR_len (b : Box) :
    ∀ l, ((fillNR b l).2).length ≤ l.length := by
  intro l
  induction l generalizing b with
  | nil => simp [fillNR]
  | cons it' rest ih =>
    cases h : (lookupGo b it').2 with
    | true =>
      simp only [fillNR, h, if_pos, List.length_cons]
      exact le_trans (ih _) (Nat.le_succ _)
    | false =>
      simp only [fillNR, h, Bool.false_eq_true, if_false, List.length_cons]
      exact Nat.succ_le_succ (ih b)

theorem packNR_inv (b : Box) (toPack : List Item) (hb : BoxInv b) :
    BoxInv (packNR b toPack).1 := by
  cases toPack with
  | nil => simpa [packNR] using hb
  | cons it rest =>
    cases h : (packFirst packFuel b it).2 with
    | true =>
      simp only [packNR, h, if_pos]
      exact fillNR_inv rest _ (packFirst_inv it packFuel b hb)
    | false =>
      simp only [packNR, h, Bool.false_eq_true, if_false]
      exact packFirst_inv it packFuel b hb

theorem escalate_inv (its : List Item) :
    ∀ fuel nbin nb, BoxInv nbin → escalate fuel its nbin = some nb → BoxInv nb := by
  intro fuel
  induction fuel with
  | zero => intro nbin nb _ h; simp [escalate] at h
  | succ fuel ih =>
    intro nbin nb hb h
    rw [escalate] at h
    by_cases hv : nbin.isValidB = true
    · rw [if_pos hv] at h
      by_cases he : ((packNR nbin its).2).isEmpty = true
      · rw [if_pos he] at h
        cases h
        exact packNR_inv nbin its hb
      · rw [if_neg he] at h
        exact ih _ nb (BoxInv_of_items_nil _ (getBiggerBox_items _)) h
    · rw [if_neg hv] at h
      cases h

theorem fillR_inv :
    ∀ l b, BoxInv b → BoxInv (fillR b l).1 := by
  intro l
  induction l with
  | nil => intro b hb; simpa [fillR] using hb
  | cons it' rest ih =>
    intro b hb
    cases h : (lookupGo b it').2 with
    | true =>
      simp only [fillR, h, if_pos]
      exact ih _ (lookupGo_inv b it' hb)
    | false =>
      cases he : escalate packFuel (b.nonBoxItems ++ [it']) (getBiggerBox b) with
      | some nb =>
        simp only [fillR, h, Bool.false_eq_true, if_false, he]
        exact ih _ (escalate_inv _ packFuel _ nb
          (BoxInv_of_items_nil _ (getBiggerBox_items b)) he)
      | none =>
        simp only [fillR, h, Bool.false_eq_true, if_false, he]
        exact ih _ hb

theorem fillR_len (b : Box) :
    ∀ l, ((fillR b l).2).length ≤ l.length := by
  intro l
  induction l generalizing b with
  | nil => simp [fillR]
  | cons it' rest ih =>
    cases h : (lookupGo b it').2 with
    | true =>
      simp only [fillR, h, if_pos, List.length_cons]
      exact le_trans (ih _) (Nat.le_succ _)
    | false =>
      cases he : escalate packFuel (b.nonBoxItems ++ [it']) (getBiggerBox b) with
      | some nb =>
        simp only [fillR, h, Bool.false_eq_true, if_false, he, List.length_cons]
        exact le_trans (ih nb) (Nat.le_succ _)
      | none =>
        simp only [fillR, h, Bool.false_eq_true, if_false, he, List.length_cons]
        exact Nat.succ_le_succ (ih b)

theorem pack_inv (b : Box) (toPack : List Item) (rb : Bool) (hb : BoxInv b) :
    BoxInv (pack b toPack rb).1 := by
  cases toPack with
  | nil => simpa [pack] using hb
  | cons it rest =>
    cases h : (packFirst packFuel b it).2 with
    | true =>
      cases rb with
      | true =>
        simp only [pack, h, if_pos]
        exact fillR_inv rest _ (packFirst_inv it packFuel b hb)
      | false =>
        simp only [pack, h, if_pos, Bool.false_eq_true, if_false]
        exact fillNR_inv rest _ (packFirst_inv it packFuel b hb)
    | false =>
      simp only [pack, h, Bool.false_eq_true, if_false]
      exact packFirst_inv it packFuel b hb

theorem pickBox_place (it : Item) (hv : (pickBox it).isValidB = true) :
    ((pickBox it).place it ⟨0, 0, 0⟩).2 = true := by
  unfold pickBox at hv ⊢
  cases hf : BoxSamples.find? (fun b => (b.place it ⟨0, 0, 0⟩).2) with
  | none =>
    rw [hf] at hv
    exact absurd hv (by decide)
  | some bb =>
    have hp := List.find?_some hf
    have hm := List.mem_of_find?_eq_some hf
    have hnil : bb.items = [] := BoxSamples_items_nil bb hm
    have hbb : ({ bb with items := [] } : Box) = bb := by
      cases bb
      simp only [Box.mk.injEq, and_true, true_and]
      simp_all
    show ((({ bb with items := [] } : Box)).place it ⟨0, 0, 0⟩).2 = true
    rw [hbb]
    simpa using hp

theorem packFirst_of_place (b : Box) (it : Item)
    (h : (b.place it ⟨0, 0, 0⟩).2 = true) :
    packFirst packFuel b it = b.place it ⟨0, 0, 0⟩ := by
  have h13 : packFuel = 12 + 1 := rfl
  rw [h13, packFirst]
  simp [h]

theorem pack_of_place (b : Box) (it : Item) (rest : List Item)
    (h : (b.place it ⟨0, 0, 0⟩).2 = true) :
    pack b (it :: rest) true = fillR (b.place it ⟨0, 0, 0⟩).1 rest := by
  simp [pack, packFirst_of_place b it h, h]

theorem packNR_of_place (b : Box) (it : Item) (rest : List Item)
    (h : (b.place it ⟨0, 0, 0⟩).2 = true) :
    pack b (it :: rest) false = fillNR (b.place it ⟨0, 0, 0⟩).1 rest := by
  simp [pack, packFirst_of_place b it h, h]

theorem PackLoop_total : ∀ fuel l acc, l.length < fuel →
    (PackLoop fuel l acc).isSome = true := by
  intro fuel
  induction fuel with
  | zero => intro l acc h; exact absurd h (Nat.not_lt_zero _)
  | succ fuel ih =>
    intro l acc h
    cases l with
    | nil => simp [PackLoop]
    | cons it rest =>
      rw [PackLoop]
      by_cases hv : (pickBox it).isValidB = true
      · rw [if_pos hv]
        have hp := pickBox_place it hv
        have hlen : (pack (pickBox it) (it :: rest) true).2.length ≤ rest.length := by
          rw [pack_of_place (pickBox it) it rest hp]
          exact fillR_len _ rest
        have hrest : rest.length < fuel := by
          simp only [List.length_cons] at h
          omega
        exact ih _ _ (lt_of_le_of_lt hlen hrest)
      · rw [if_neg hv]
        rfl

theorem PackLoop_inv : ∀ fuel l acc, (∀ b ∈ acc, BoxInv b) →
    ∀ bs e, PackLoop fuel l acc = some (bs, e) → ∀ b ∈ bs, BoxInv b := by
  intro fuel
  induction fuel with
  | zero =>
    intro l acc hacc bs e h
    cases l with
    | nil =>
      rw [PackLoop] at h
      simp only [Option.some.injEq, Prod.mk.injEq] at h
      rw [← h.1]
      exact hacc
    | cons it rest => simp [PackLoop] at h
  | succ fuel ih =>
    intro l acc hacc bs e h
    cases l with
    | nil =>
      rw [PackLoop] at h
      simp only [Option.some.injEq, Prod.mk.injEq] at h
      rw [← h.1]
      exact hacc
    | cons it rest =>
      rw [PackLoop] at h
      by_cases hv : (pickBox it).isValidB = true
      · rw [if_pos hv] at h
        have hrinv : BoxInv (pack (pickBox it) (it :: rest) true).1 :=
          pack_inv _ _ _ (BoxInv_of_items_nil _ (pickBox_items it))
        refine ih _ _ ?_ bs e h
        intro b hb
        by_cases hemp : ((pack (pickBox it) (it :: rest) true).1.items).isEmpty = true
        · rw [if_pos hemp] at hb
          exact hacc b hb
        · rw [if_neg hemp] at hb
          rcases List.mem_append.mp hb with hmem | hmem
          · exact hacc b hmem
          · rw [List.mem_singleton.mp hmem]
            exact hrinv
      · rw [if_neg hv] at h
        simp only [Option.some.injEq, Prod.mk.injEq] at h
        rw [← h.1]
        exact hacc

theorem Pack_inv (items : List Item) (bs : List Box) (e : Option Item)
    (h : Pack items = some (bs, e)) : ∀ b ∈ bs, BoxInv b := by
  unfold Pack at h
  refine PackLoop_inv _ _ [] ?_ bs e h
  intro b hb
  exact absurd hb (List.not_mem_nil b)

/-! ### Geometry lemmas -/

theorem intersect_comm (o1 o2 : Nat × Nat) (x1 y1 x2 y2 : Nat) :
    intersect o1 o2 x1 y1 x2 y2 = intersect o2 o1 x2 y2 x1 y1 := by
  rw [Bool.eq_iff_iff]
  simp only [intersect, Bool.and_eq_true, decide_eq_true_eq]
  split_ifs <;> omega

theorem intersectBI_comm (a c : BoxItem) :
    BoxItem.intersect a c = BoxItem.intersect c a := by
  simp only [BoxItem.intersect]
  rw [intersect_comm (a.pos.x, a.pos.y), intersect_comm (a.pos.y, a.pos.z),
    intersect_comm (a.pos.x, a.pos.z)]

theorem axis_sound (a x1 b x2 : Nat) (h1 : 0 < x1) (h2 : 0 < x2)
    (h : (if a + x1 / 2 > b + x2 / 2 then (a + x1 / 2) - (b + x2 / 2)
          else (b + x2 / 2) - (a + x1 / 2)) < (x1 + x2) / 2) :
    overlapsExact1 a x1 b x2 := by
  unfold overlapsExact1
  split at h <;> omega

theorem intersect_true_parts (o1 o2 : Nat × Nat) (x1 y1 x2 y2 : Nat)
    (h : intersect o1 o2 x1 y1 x2 y2 = true) :
    ((if o1.1 + x1 / 2 > o2.1 + x2 / 2 then (o1.1 + x1 / 2) - (o2.1 + x2 / 2)
        else (o2.1 + x2 / 2) - (o1.1 + x1 / 2)) < (x1 + x2) / 2) ∧
    ((if o1.2 + y1 / 2 > o2.2 + y2 / 2 then (o1.2 + y1 / 2) - (o2.2 + y2 / 2)
        else (o2.2 + y2 / 2) - (o1.2 + y1 / 2)) < (y1 + y2) / 2) := by
  simpa [intersect] using h

theorem dims_pos (bi : BoxItem) (hw : 0 < bi.item.width) (hh : 0 < bi.item.height)
    (hd : 0 < bi.item.depth) :
    0 < bi.dimensions.x ∧ 0 < bi.dimensions.y ∧ 0 < bi.dimensions.z := by
  rcases bi with ⟨itm, pos, rt⟩
  simp only [BoxItem.dimensions] at *
  cases rt <;> refine ⟨?_, ?_, ?_⟩ <;> assumption

/-! ### Anchor-list characterization of the lookup loops -/

theorem tryAnchorList_append (b : Box) (it : Item) :
    ∀ l1 l2, tryAnchorList b it (l1 ++ l2) =
      if (tryAnchorList b it l1).2 then tryAnchorList b it l1
      else tryAnchorList b it l2 := by
  intro l1 l2
  induction l1 with
  | nil => simp [tryAnchorList]
  | cons pos rest ih =>
    cases h : (b.place it pos).2 with
    | true => simp [tryAnchorList, h]
    | false => simp [tryAnchorList, h, ih]

theorem lookupItems_eq_try (b : Box) (it : Item) (p : Nat) :
    ∀ l, lookupItems b it p l = tryAnchorList b it (l.map (goAnchor p)) := by
  intro l
  induction l with
  | nil => rfl
  | cons bi rest ih =>
    cases h : (b.place it (goAnchor p bi)).2 with
    | true => simp [lookupItems, tryAnchorList, h]
    | false => simp [lookupItems, tryAnchorList, h, ih]

theorem lookupGo_eq_try (b : Box) (it : Item) :
    lookupGo b it = tryAnchorList b it (candidateAnchors b) := by
  unfold lookupGo candidateAnchors
  rw [lookupItems_eq_try, lookupItems_eq_try, lookupItems_eq_try,
    tryAnchorList_append, tryAnchorList_append]
  by_cases h0 : (tryAnchorList b it (b.items.map (goAnchor 0))).2 = true
  · simp [h0]
  · simp only [Bool.not_eq_true] at h0
    simp only [h0, Bool.false_eq_true, if_false]

/-! ### Fuel adequacy

The Go escalation loops carry no fuel; the model's `packFuel = 13` is
justified here: every `getBiggerBox` step strictly increases the volume, so
the number of catalog entries above the current volume strictly decreases,
and the result of `packFirst`/`escalate` is the same for every fuel beyond
that count.  Likewise `PackLoop` computes the same answer for every fuel
above the batch length. -/

theorem filter_len_mono {α : Type} (l : List α) (p q : α → Bool)
    (h : ∀ x ∈ l, p x = true → q x = true) :
    (l.filter p).length ≤ (l.filter q).length := by
  induction l with
  | nil => simp
  | cons a t ih =>
    have iht := ih (fun x hx => h x (List.mem_cons_of_mem a hx))
    by_cases hp : p a = true
    · rw [List.filter_cons_of_pos hp, List.filter_cons_of_pos (h a (List.mem_cons_self a t) hp)]
      simpa using iht
    · rw [List.filter_cons_of_neg (by simpa using hp)]
      by_cases hq : q a = true
      · rw [List.filter_cons_of_pos hq]
        exact le_trans iht (Nat.le_succ _)
      · rw [List.filter_cons_of_neg (by simpa using hq)]
        exact iht

theorem find_gt_filter_lt (v : Nat) : ∀ (l : List Box) (b0 : Box),
    l.find? (fun b => decide (v < b.volume)) = some b0 →
    (l.filter (fun b => decide (b0.volume < b.volume))).length <
      (l.filter (fun b => decide (v < b.volume))).length := by
  intro l
  induction l with
  | nil => intro b0 h; simp at h
  | cons a t ih =>
    intro b0 h
    by_cases hp : v < a.volume
    · rw [List.find?_cons_of_pos _ (by simpa using hp)] at h
      have hab : a = b0 := by simpa using h
      subst hab
      rw [List.filter_cons_of_neg (by simp), List.filter_cons_of_pos (by simpa using hp)]
      have hm : (t.filter (fun b => decide (a.volume < b.volume))).length ≤
          (t.filter (fun b => decide (v < b.volume))).length := by
        refine filter_len_mono t _ _ (fun x _ hx => ?_)
        simp only [decide_eq_true_eq] at hx ⊢
        omega
      simpa using Nat.lt_succ_of_le hm
    · rw [List.find?_cons_of_neg _ (by simpa using hp)] at h
      have hv0 : v < b0.volume := by simpa using List.find?_some h
      rw [List.filter_cons_of_neg (by simp only [decide_eq_true_eq]; omega),
        List.filter_cons_of_neg (by simpa using hp)]
      exact ih b0 h

theorem countBigger_anti (v w : Nat) (h : v ≤ w) : countBigger w ≤ countBigger v := by
  unfold countBigger
  refine filter_len_mono _ _ _ (fun x _ hx => ?_)
  simp only [decide_eq_true_eq] at hx ⊢
  omega

theorem countBigger_le (v : Nat) : countBigger v ≤ 12 := by
  have h := List.length_filter_le (fun b => decide (v < b.volume)) BoxSamples
  simpa [countBigger] using h

theorem getBiggerBox_volume (b : Box) (h : (getBiggerBox b).isValidB = true) :
    b.volume < (getBiggerBox b).volume := by
  unfold getBiggerBox at h ⊢
  cases hf : BoxSamples.find? (fun bb => decide (b.volume < bb.volume)) with
  | none =>
    rw [hf] at h
    exact absurd h (by decide)
  | some b0 =>
    rw [hf] at h
    simpa using List.find?_some hf

theorem countBigger_dec (b : Box) (h : (getBiggerBox b).isValidB = true) :
    countBigger (getBiggerBox b).volume < countBigger b.volume := by
  unfold getBiggerBox at h ⊢
  cases hf : BoxSamples.find? (fun bb => decide (b.volume < bb.volume)) with
  | none =>
    rw [hf] at h
    exact absurd h (by decide)
  | some b0 =>
    rw [hf] at h
    exact find_gt_filter_lt b.volume BoxSamples b0 hf

theorem packFirst_fuel_irrelevant (it : Item) : ∀ f g b,
    countBigger b.volume < f → countBigger b.volume < g →
    packFirst f b it = packFirst g b it := by
  intro f
  induction f with
  | zero => intro g b hf _; exact absurd hf (Nat.not_lt_zero _)
  | succ f ih =>
    intro g b hf hg
    cases g with
    | zero => exact absurd hg (Nat.not_lt_zero _)
    | succ g =>
      rw [packFirst, packFirst]
      by_cases hp : (b.place it ⟨0, 0, 0⟩).2 = true
      · simp [hp]
      · simp only [Bool.not_eq_true] at hp
        simp only [hp, Bool.false_eq_true, if_false]
        by_cases hv : (getBiggerBox b).isValidB = true
        · rw [if_pos hv, if_pos hv]
          have hd := countBigger_dec b hv
          exact ih g (getBiggerBox b) (by omega) (by omega)
        · rw [if_neg hv, if_neg hv]

theorem place_volume (b : Box) (it : Item) (pos : V3) :
    (b.place it pos).1.volume = b.volume := by
  obtain ⟨hw, hh, hd⟩ := place_dims b it pos
  unfold Box.volume
  rw [hw, hh, hd]

theorem packFirst_volume_ge (it : Item) : ∀ f b,
    b.volume ≤ (packFirst f b it).1.volume := by
  intro f
  induction f with
  | zero => intro b; exact le_refl _
  | succ f ih =>
    intro b
    rw [packFirst]
    by_cases hp : (b.place it ⟨0, 0, 0⟩).2 = true
    · simp only [hp, if_pos]
      exact (place_volume b it ⟨0, 0, 0⟩).ge
    · simp only [Bool.not_eq_true] at hp
      simp only [hp, Bool.false_eq_true, if_false]
      by_cases hv : (getBiggerBox b).isValidB = true
      · rw [if_pos hv]
        exact le_trans (le_of_lt (getBiggerBox_volume b hv)) (ih (getBiggerBox b))
      · rw [if_neg hv]

theorem fillNR_volume (b : Box) (l : List Item) :
    (fillNR b l).1.volume = b.volume := by
  obtain ⟨hw, hh, hd⟩ := fillNR_dims b l
  unfold Box.volume
  rw [hw, hh, hd]

theorem packNR_volume_ge (b : Box) (l : List Item) :
    b.volume ≤ (packNR b l).1.volume := by
  cases l with
  | nil => exact le_refl _
  | cons it rest =>
    by_cases hp : (packFirst packFuel b it).2 = true
    · simp only [packNR, hp, if_pos]
      rw [fillNR_volume]
      exact packFirst_volume_ge it packFuel b
    · simp only [Bool.not_eq_true] at hp
      simp only [packNR, hp, Bool.false_eq_true, if_false]
      exact packFirst_volume_ge it packFuel b

theorem escalate_fuel_irrelevant (its : List Item) : ∀ f g nbin,
    countBigger nbin.volume + 1 < f → countBigger nbin.volume + 1 < g →
    escalate f its nbin = escalate g its nbin := by
  intro f
  induction f with
  | zero => intro g nbin hf _; exact absurd hf (Nat.not_lt_zero _)
  | succ f ih =>
    intro g nbin hf hg
    cases g with
    | zero => exact absurd hg (Nat.not_lt_zero _)
    | succ g =>
      rw [escalate, escalate]
      by_cases hv : nbin.isValidB = true
      · rw [if_pos hv, if_pos hv]
        simp only []
        by_cases he : ((packNR nbin its).2).isEmpty = true
        · rw [if_pos he, if_pos he]
        · rw [if_neg he, if_neg he]
          by_cases hnv : (getBiggerBox (packNR nbin its).1).isValidB = true
          · have h1 : countBigger (getBiggerBox (packNR nbin its).1).volume <
                countBigger (packNR nbin its).1.volume := countBigger_dec _ hnv
            have h2 : countBigger (packNR nbin its).1.volume ≤ countBigger nbin.volume :=
              countBigger_anti _ _ (packNR_volume_ge nbin its)
            exact ih g _ (by omega) (by omega)
          · have hf1 : 0 < f := by omega
            have hg1 : 0 < g := by omega
            obtain ⟨f2, rfl⟩ : ∃ f2, f = f2 + 1 := ⟨f - 1, by omega⟩
            obtain ⟨g2, rfl⟩ : ∃ g2, g = g2 + 1 := ⟨g - 1, by omega⟩
            rw [escalate, escalate, if_neg (by simpa using hnv), if_neg (by simpa using hnv)]
      · rw [if_neg hv, if_neg hv]

theorem countBigger_BoxSamples : ∀ b ∈ BoxSamples, countBigger b.volume ≤ 11 := by
  decide

theorem escalate_packFuel_eq (its : List Item) (b : Box) (f : Nat) (hf : 12 < f) :
    escalate packFuel its (getBiggerBox b) = escalate f its (getBiggerBox b) := by
  by_cases hv : (getBiggerBox b).isValidB = true
  · have hmem : countBigger (getBiggerBox b).volume ≤ 11 := by
      unfold getBiggerBox at hv ⊢
      cases hf2 : BoxSamples.find? (fun bb => decide (b.volume < bb.volume)) with
      | none =>
        rw [hf2] at hv
        exact absurd hv (by decide)
      | some b0 =>
        show countBigger b0.volume ≤ 11
        exact countBigger_BoxSamples b0 (List.mem_of_find?_eq_some hf2)
    have h13 : packFuel = 13 := rfl
    exact escalate_fuel_irrelevant its packFuel f _ (by omega) (by omega)
  · obtain ⟨f2, rfl⟩ : ∃ f2, f = f2 + 1 := ⟨f - 1, by omega⟩
    have h13 : packFuel = 12 + 1 := rfl
    rw [h13, escalate, escalate, if_neg (by simpa using hv), if_neg (by simpa using hv)]

theorem PackLoop_fuel_irrelevant : ∀ f g l acc, l.length < f → l.length < g →
    PackLoop f l acc = PackLoop g l acc := by
  intro f
  induction f with
  | zero => intro g l acc hf _; exact absurd hf (Nat.not_lt_zero _)
  | succ f ih =>
    intro g l acc hf hg
    cases g with
    | zero => exact absurd hg (Nat.not_lt_zero _)
    | succ g =>
      cases l with
      | nil => rw [PackLoop, PackLoop]
      | cons it rest =>
        rw [PackLoop, PackLoop]
        by_cases hv : (pickBox it).isValidB = true
        · rw [if_pos hv, if_pos hv]
          simp only []
          have hp := pickBox_place it hv
          have hlen : (pack (pickBox it) (it :: rest) true).2.length ≤ rest.length := by
            rw [pack_of_place _ _ _ hp]
            exact fillR_len _ rest
          simp only [List.length_cons] at hf hg
          exact ih g _ _ (by omega) (by omega)
        · rw [if_neg hv, if_neg hv]

/-! ## Claim theorems -/

/-- C1 (counterexample): the claim "for every returned box, every pair of
placed items' rotated boxes do not intersect with positive volume" is false:
`Pack [cIOdd, cICube40]` succeeds and returns one box whose two items truly
overlap (region x ∈ [160,161], y ∈ [0,40], z ∈ [0,40], volume 1600 mm³);
the truncating center test misses it because ⌊161/2⌋ drops the half millimetre. -/
theorem claimC1_counterexample :
    Pack [cIOdd, cICube40] =
      some ([⟨"Box1", 220, 160, 100, 110,
        [ ⟨cIOdd, ⟨0, 0, 0⟩, RT2⟩, ⟨cICube40, ⟨160, 0, 0⟩, RT1⟩ ]⟩], none) ∧
    overlapsExact ⟨cIOdd, ⟨0, 0, 0⟩, RT2⟩ ⟨cICube40, ⟨160, 0, 0⟩, RT1⟩ :=
  ⟨by decide, by decide⟩

/-- C1 (amended): for every input on which `Pack` succeeds and every returned
box, every pair of placed items passes the implementation's strict-inequality
overlap test (`BoxItem.intersect`) as non-overlapping, in both orders; true
positive-volume intersection may nevertheless occur (see the
counterexample). -/
theorem claimC1_amended (items : List Item) (bs : List Box) (e : Option Item)
    (h : Pack items = some (bs, e)) (bx : Box) (hbx : bx ∈ bs) :
    List.Pairwise
      (fun a c => BoxItem.intersect a c = false ∧ BoxItem.intersect c a = false)
      bx.items := by
  have hinv := Pack_inv items bs e h bx hbx
  exact List.Pairwise.imp
    (fun hac => ⟨hac, (intersectBI_comm _ _).trans hac⟩) hinv.1

/-- C1 (witness): the amended invariant evaluated on the concrete run
`Pack [cI60]`. -/
theorem claimC1_witness :
    List.Pairwise
      (fun a c => BoxItem.intersect a c = false ∧ BoxItem.intersect c a = false)
      cBox60.items :=
  claimC1_amended [cI60] [cBox60] none (by decide) cBox60 (List.mem_singleton.mpr rfl)

/-- C2 (counterexample): the overlap test is not an "iff" for positive-volume
intersection: a 1 mm cube at the origin lies strictly inside a 2 mm cube at
the origin (positive shared volume), yet `BoxItem.intersect` reports no
overlap, because truncated centers give distance 1 while the truncated
half-extent sum is ⌊3/2⌋ = 1 and 1 < 1 fails. -/
theorem claimC2_counterexample :
    overlapsExact ⟨⟨2, 2, 2, 1⟩, ⟨0, 0, 0⟩, RT1⟩ ⟨⟨1, 1, 1, 1⟩, ⟨0, 0, 0⟩, RT1⟩ ∧
    BoxItem.intersect ⟨⟨2, 2, 2, 1⟩, ⟨0, 0, 0⟩, RT1⟩ ⟨⟨1, 1, 1, 1⟩, ⟨0, 0, 0⟩, RT1⟩
      = false := by
  decide

/-- C2 (amended): the test is sound but not complete: for items with positive
dimensions, whenever `BoxItem.intersect` reports overlap the two rotated
boxes really do intersect with positive volume; the converse fails (see the
counterexample) because centers and half-extent sums use truncating integer
division. -/
theorem claimC2_amended (bi1 bi2 : BoxItem)
    (h1w : 0 < bi1.item.width) (h1h : 0 < bi1.item.height) (h1d : 0 < bi1.item.depth)
    (h2w : 0 < bi2.item.width) (h2h : 0 < bi2.item.height) (h2d : 0 < bi2.item.depth)
    (h : BoxItem.intersect bi1 bi2 = true) : overlapsExact bi1 bi2 := by
  simp only [BoxItem.intersect, Bool.and_eq_true] at h
  obtain ⟨⟨hXY, hYZ⟩, hXZ⟩ := h
  have pxy := intersect_true_parts _ _ _ _ _ _ hXY
  have pyz := intersect_true_parts _ _ _ _ _ _ hYZ
  obtain ⟨d1x, d1y, d1z⟩ := dims_pos bi1 h1w h1h h1d
  obtain ⟨d2x, d2y, d2z⟩ := dims_pos bi2 h2w h2h h2d
  exact ⟨axis_sound _ _ _ _ d1x d2x pxy.1, axis_sound _ _ _ _ d1y d2y pxy.2,
    axis_sound _ _ _ _ d1z d2z pyz.2⟩

/-- C2 (witness): soundness evaluated on two genuinely colliding cubes. -/
theorem claimC2_witness :
    overlapsExact ⟨⟨2, 2, 2, 1⟩, ⟨0, 0, 0⟩, RT1⟩ ⟨⟨2, 2, 2, 1⟩, ⟨1, 0, 0⟩, RT1⟩ :=
  claimC2_amended _ _ (by decide) (by decide) (by decide) (by decide) (by decide)
    (by decide) (by decide)

/-- C3: `Pack` terminates on every finite input (the model returns `none`
exactly when Go's outer loop would repeat a batch forever, and that never
happens), and the progress fact behind it: whenever the selected box is
valid, the outer iteration's `pack` call strictly shrinks the batch — the
leading item is always seated. -/
theorem claimC3_termination :
    (∀ items : List Item, (Pack items).isSome = true) ∧
    (∀ (it : Item) (rest : List Item), (pickBox it).isValidB = true →
      (pack (pickBox it) (it :: rest) true).2.length < (it :: rest).length) := by
  constructor
  · intro items
    unfold Pack
    exact PackLoop_total _ _ [] (Nat.lt_succ_self _)
  · intro it rest hv
    have hp := pickBox_place it hv
    rw [pack_of_place _ _ _ hp]
    simp only [List.length_cons]
    exact Nat.lt_succ_of_le (fillR_len _ rest)

/-- C3 (witness): progress on a concrete two-item batch. -/
theorem claimC3_witness :
    (pack (pickBox cI60) (cI60 :: [cI10]) true).2.length <
      ((cI60 :: [cI10]) : List Item).length :=
  claimC3_termination.2 cI60 [cI10] (by decide)

/-- C4 (counterexample): the catalog is not ascending by volume: at indices
4 < 5, Box5 (300·210·200 = 12 600 000) is strictly bigger than Box6
(300·300·130 = 11 700 000). -/
theorem claimC4_counterexample :
    (4 : Nat) < 5 ∧
    (BoxSamples.get ⟨5, by decide⟩).volume < (BoxSamples.get ⟨4, by decide⟩).volume := by
  decide

/-- C4 (amended): the catalog is ascending by volume for every index pair
except exactly (4,5) (Box5 > Box6) and (8,9) (Box9 > Box10). -/
theorem claimC4_amended (i j : Fin BoxSamples.length) (hij : i.val < j.val)
    (h56 : ¬(i.val = 4 ∧ j.val = 5)) (h910 : ¬(i.val = 8 ∧ j.val = 9)) :
    (BoxSamples.get i).volume ≤ (BoxSamples.get j).volume := by
  revert hij h56 h910
  revert i j
  decide

/-- C4 (witness): the amended ordering evaluated at the first two entries. -/
theorem claimC4_witness :
    (BoxSamples.get ⟨0, by decide⟩).volume ≤ (BoxSamples.get ⟨1, by decide⟩).volume :=
  claimC4_amended ⟨0, by decide⟩ ⟨1, by decide⟩ (by decide) (by decide) (by decide)

/-- C5 (counterexample): `Pack` can return the item-too-big error together
with a NON-empty box list: the first iteration commits Box12 around `cIBig`,
the second fails on `cILong`, and the `return` keeps the earlier box. -/
theorem claimC5_counterexample :
    Pack [cIBig, cILong] =
      some ([⟨"Box12", 465, 350, 370, 650, [⟨cIBig, ⟨0, 0, 0⟩, RT1⟩]⟩], some cILong) ∧
    ([⟨"Box12", 465, 350, 370, 650, [⟨cIBig, ⟨0, 0, 0⟩, RT1⟩]⟩] : List Box) ≠ [] :=
  ⟨by decide, by simp⟩

/-- C5 (amended): on the item-too-big error `Pack` returns the boxes already
committed by earlier outer iterations: every outcome of the outer loop
extends the accumulated box list, so the list returned with the error is
empty only when the failure happens on the first iteration. -/
theorem claimC5_amended : ∀ fuel l acc bs e, PackLoop fuel l acc = some (bs, e) →
    ∃ tl, bs = acc ++ tl := by
  intro fuel
  induction fuel with
  | zero =>
    intro l acc bs e h
    cases l with
    | nil =>
      rw [PackLoop] at h
      simp only [Option.some.injEq, Prod.mk.injEq] at h
      exact ⟨[], by rw [← h.1, List.append_nil]⟩
    | cons it rest => simp [PackLoop] at h
  | succ fuel ih =>
    intro l acc bs e h
    cases l with
    | nil =>
      rw [PackLoop] at h
      simp only [Option.some.injEq, Prod.mk.injEq] at h
      exact ⟨[], by rw [← h.1, List.append_nil]⟩
    | cons it rest =>
      rw [PackLoop] at h
      by_cases hv : (pickBox it).isValidB = true
      · rw [if_pos hv] at h
        simp only [] at h
        by_cases hemp : ((pack (pickBox it) (it :: rest) true).1.items).isEmpty = true
        · rw [if_pos hemp] at h
          exact ih _ _ bs e h
        · rw [if_neg hemp] at h
          rcases ih _ _ bs e h with ⟨tl, htl⟩
          exact ⟨(pack (pickBox it) (it :: rest) true).1 :: tl,
            by rw [htl, List.append_assoc]; rfl⟩
      · rw [if_neg hv] at h
        simp only [Option.some.injEq, Prod.mk.injEq] at h
        exact ⟨[], by rw [← h.1, List.append_nil]⟩

/-- C5 (witness): the accumulator-extension fact at a concrete call. -/
theorem claimC5_witness : ∃ tl, ([] : List Box) = [] ++ tl :=
  claimC5_amended 1 [] [] [] none rfl

/-- C6 (counterexample): the claim that every candidate anchor offsets the
seated item's position by its ROTATED extent is false: in `Pack [cI60, cI10]`
the first item seats at the origin under RT3 (rotated extents 50×150×60),
and the second item is then seated at (60,0,0) — the un-rotated width 60 —
which is none of the three rotated-extent anchors (50,0,0), (0,150,0),
(0,0,60). -/
theorem claimC6_counterexample :
    Pack [cI60, cI10] =
      some ([⟨"Box1", 220, 160, 100, 110,
        [ ⟨cI60, ⟨0, 0, 0⟩, RT3⟩, ⟨cI10, ⟨60, 0, 0⟩, RT1⟩ ]⟩], none) ∧
    (⟨60, 0, 0⟩ : V3) ∉
      ([ ⟨0 + (BoxItem.dimensions ⟨cI60, ⟨0, 0, 0⟩, RT3⟩).x, 0, 0⟩
       , ⟨0, 0 + (BoxItem.dimensions ⟨cI60, ⟨0, 0, 0⟩, RT3⟩).y, 0⟩
       , ⟨0, 0, 0 + (BoxItem.dimensions ⟨cI60, ⟨0, 0, 0⟩, RT3⟩).z⟩ ] : List V3) :=
  ⟨by decide, by decide⟩

/-- C6 (amended): the fill loop's candidate anchors are the seated items'
positions offset along one axis by the item's ORIGINAL (un-rotated) width,
height or depth respectively — regardless of the stored rotation — tried
axis-by-axis over the seated items in order, first fit wins. -/
theorem claimC6_amended :
    (∀ (b : Box) (it : Item), lookupGo b it = tryAnchorList b it (candidateAnchors b)) ∧
    (∀ bi : BoxItem,
      goAnchor 0 bi = ⟨bi.pos.x + bi.item.width, bi.pos.y, bi.pos.z⟩ ∧
      goAnchor 1 bi = ⟨bi.pos.x, bi.pos.y + bi.item.height, bi.pos.z⟩ ∧
      goAnchor 2 bi = ⟨bi.pos.x, bi.pos.y, bi.pos.z + bi.item.depth⟩) :=
  ⟨lookupGo_eq_try, fun _ => ⟨rfl, rfl, rfl⟩⟩

/-- C7 (counterexample): the tentative re-pack is not escalation-free: with
the working box Box5 holding a 160 mm cube and a 150 mm cube failing, the
candidate is Box7 (370×270×150); re-packing `[cI160, cI150]` into it with
`replaceBin = false` returns a box with Box8's dimensions (300×300×250) —
the first item cannot seat in Box7, so the "non-reentrant" call itself
replaced the candidate template. -/
theorem claimC7_counterexample :
    (getBiggerBox (pickBox cI160)).width = 370 ∧
    (getBiggerBox (pickBox cI160)).height = 270 ∧
    (getBiggerBox (pickBox cI160)).depth = 150 ∧
    (pack (getBiggerBox (pickBox cI160)) [cI160, cI150] false).1.width = 300 ∧
    (pack (getBiggerBox (pickBox cI160)) [cI160, cI150] false).1.height = 300 ∧
    (pack (getBiggerBox (pickBox cI160)) [cI160, cI150] false).1.depth = 250 := by
  decide

/-- C7 (amended): in the non-reentrant variant escalation is disabled only
for the subsequent-item loop — `fillNR` never changes the box dimensions —
and when the first item does place at the origin the whole call keeps the
candidate box; only a first-item origin-placement failure escalates. -/
theorem claimC7_amended :
    (∀ (b : Box) (l : List Item),
      (fillNR b l).1.width = b.width ∧ (fillNR b l).1.height = b.height ∧
        (fillNR b l).1.depth = b.depth) ∧
    (∀ (b : Box) (it : Item) (rest : List Item), (b.place it ⟨0, 0, 0⟩).2 = true →
      pack b (it :: rest) false = fillNR (b.place it ⟨0, 0, 0⟩).1 rest) :=
  ⟨fun b l => fillNR_dims b l, packNR_of_place⟩

/-- C7 (witness): the first-item clause evaluated on a concrete call. -/
theorem claimC7_witness :
    pack (pickBox cI10) (cI10 :: []) false =
      fillNR ((pickBox cI10).place cI10 ⟨0, 0, 0⟩).1 [] :=
  claimC7_amended.2 (pickBox cI10) cI10 [] (by decide)

/-- C8: `Box.place` tries RT1..RT6 in order; a rotation failing the boundary
check is skipped, and the first boundary-fitting rotation is the only one
collision-checked: a collision aborts the whole attempt (no later rotation is
tried) and returns failure with the box unchanged — exactly `placeSpec`. -/
theorem claimC8_place_order (b : Box) (it : Item) (pos : V3) :
    b.place it pos = placeSpec b it pos :=
  place_eq_placeSpec b it pos

/-- C9: for every input on which `Pack` succeeds, every placed item of every
returned box satisfies the in-bounds invariant
`pos[i] + rotatedExtent[i] ≤ box.dimension[i]` on all three axes. -/
theorem claimC9_in_bounds (items : List Item) (bs : List Box) (e : Option Item)
    (h : Pack items = some (bs, e)) (bx : Box) (hbx : bx ∈ bs)
    (bi : BoxItem) (hbi : bi ∈ bx.items) : inBoundsBI bx bi :=
  (Pack_inv items bs e h bx hbx).2 bi hbi

/-- C9 (witness): the invariant evaluated on the concrete run `Pack [cI160]`. -/
theorem claimC9_witness : inBoundsBI cBox160 ⟨cI160, ⟨0, 0, 0⟩, RT1⟩ :=
  claimC9_in_bounds [cI160] [cBox160] none (by decide) cBox160
    (List.mem_singleton.mpr rfl) ⟨cI160, ⟨0, 0, 0⟩, RT1⟩ (List.mem_singleton.mpr rfl)

/-- C10: `Pack` sorts the caller's slice in place before packing: after the
call the caller's array holds a descending-volume permutation of the items
(`callerSliceAfterPack` models the slice contents on return, `sortDesc` being
the first statement of `Pack`), and on a concrete input the order really does
change. -/
theorem claimC10_slice_sorted :
    (∀ items : List Item, (callerSliceAfterPack items).Perm items ∧
      List.Pairwise volGe (callerSliceAfterPack items)) ∧
    callerSliceAfterPack [⟨1, 1, 1, 1⟩, ⟨2, 2, 2, 2⟩] ≠ [⟨1, 1, 1, 1⟩, ⟨2, 2, 2, 2⟩] := by
  constructor
  · intro items
    exact ⟨List.perm_insertionSort volGe items, List.sorted_insertionSort volGe items⟩
  · decide

/-- The repository's own `TestPack` reproduced end to end: the seven test
items fill a single Box1 with exactly the positions and rotations the Go test
expects. -/
theorem testPack_reproduced :
    Pack
      [ ⟨20, 100, 30, 10⟩, ⟨100, 20, 30, 10⟩, ⟨20, 100, 30, 10⟩
      , ⟨100, 20, 30, 10⟩, ⟨100, 20, 30, 10⟩, ⟨100, 100, 30, 10⟩
      , ⟨100, 100, 30, 10⟩ ] =
      some ([⟨"Box1", 220, 160, 100, 110,
        [ ⟨⟨100, 100, 30, 10⟩, ⟨0, 0, 0⟩, RT1⟩
        , ⟨⟨100, 100, 30, 10⟩, ⟨100, 0, 0⟩, RT1⟩
        , ⟨⟨20, 100, 30, 10⟩, ⟨200, 0, 0⟩, RT1⟩
        , ⟨⟨100, 20, 30, 10⟩, ⟨0, 100, 0⟩, RT1⟩
        , ⟨⟨20, 100, 30, 10⟩, ⟨100, 100, 0⟩, RT2⟩
        , ⟨⟨100, 20, 30, 10⟩, ⟨200, 100, 0⟩, RT3⟩
        , ⟨⟨100, 20, 30, 10⟩, ⟨0, 120, 0⟩, RT1⟩ ]⟩], none) := by
  decide

end Binpacking
